import Mathlib

/-!
Verification of the CoderAgent pipeline (src/coder_agent/main.py and
src/coder_agent/backend.py).

The code is shallowly embedded as follows.

* Text is modelled as `List Char` (`Str`).  All text-manipulating helpers of
  the source (`clean_code`, the `"## Tests"` split in `run_tests_and_correct`,
  `str.strip`) are translated to executable Lean functions on `Str`.
* The external world (LLM responses, mypy verdicts, unittest verdicts,
  stubgen output) is an oracle record `Env`; each external call consumes the
  next oracle value, indexed by a per-tool call counter, so theorems quantify
  over every possible sequence of verdicts and responses.
* The orchestration functions `type_check_and_correct`, `test_designer_agent`,
  `run_tests_and_correct` and `run` are translated to state-passing functions
  over a state `St` that records the written files and an event trace
  (generator calls, verifier invocations, stub generation, file writes).
  Loops are translated with an explicit fuel argument that mirrors the
  source's loop bound (`tries <= max_retries` resp. the post-increment break
  `tries > max_retries`); the fuel equals the number of loop iterations the
  source can still perform, so the translation is exact.
* Prompt texts assembled with `textwrap.dedent` are not reproduced: the LLM
  oracle is indexed by call count, so the prompt content cannot influence any
  modelled behaviour.  `print` calls and the `interactive` pauses (which the
  spec itself describes as control-flow-free hooks) are likewise dropped.
* Python's `\s` / `str.strip` whitespace is modelled by its ASCII fragment;
  every concrete input evaluated in this file is ASCII.
-/

/-- Text, as in the Python source: a list of characters. -/
abbrev Str := List Char

/-- ASCII fragment of Python's whitespace (`str.strip`, regex `\s`). -/
def isPyWS (c : Char) : Bool :=
  c == ' ' || c == '\t' || c == '\n' || c == '\r' ||
  c == Char.ofNat 11 || c == Char.ofNat 12

/-- Python `str.strip()`: drop leading and trailing whitespace. -/
def pyStrip (s : Str) : Str :=
  ((s.dropWhile isPyWS).reverse.dropWhile isPyWS).reverse

/-- The fixed separator `"## Tests"` of `run_tests_and_correct` (line 177). -/
def TEST_SEP : Str := ['#', '#', ' ', 'T', 'e', 's', 't', 's']

/-- The glue `"\n\n"` used around the separator (line 181). -/
def GLUE : Str := ['\n', '\n']

/-- Python `str.split(sep)` for a non-empty separator, with explicit fuel:
splits on every non-overlapping occurrence, scanning left to right.  Called
with `fuel = x.length` (see `pySplit`), the fuel never runs out. -/
def pySplitF (sep : List Char) : Nat → List Char → List (List Char)
  | _, [] => [[]]
  | 0, x => [x]
  | fuel + 1, c :: rest =>
    if sep.isPrefixOf (c :: rest) then
      [] :: pySplitF sep fuel ((c :: rest).drop sep.length)
    else
      match pySplitF sep fuel rest with
      | [] => [[c]]
      | p :: ps => (c :: p) :: ps

/-- Python `x.split(sep)` (line 198 of main.py). -/
def pySplit (sep x : List Char) : List (List Char) :=
  pySplitF sep x.length x

/-- Number of non-overlapping occurrences of `sep` in `x`, scanning left to
right exactly as `pySplitF` does (fuelled version). -/
def countOccF (sep : List Char) : Nat → List Char → Nat
  | _, [] => 0
  | 0, _ => 0
  | fuel + 1, c :: rest =>
    if sep.isPrefixOf (c :: rest) then
      countOccF sep fuel ((c :: rest).drop sep.length) + 1
    else
      countOccF sep fuel rest

/-- Number of non-overlapping occurrences of `sep` in `x`. -/
def countOcc (sep x : List Char) : Nat :=
  countOccF sep x.length x

/-- Rejoining the parts of a split with the separator interposed. -/
def joinSep (sep : List Char) : List (List Char) → List Char
  | [] => []
  | [p] => p
  | p :: q :: ps => p ++ sep ++ joinSep sep (q :: ps)

/-! Model of `clean_code` (main.py lines 16-25).

The source searches the raw model output for the Python regular expression

  CODE_BLOCK_REGEX = `^` + three backticks + `(python)?\s*$((.*\n)*)^` +
                     three backticks + `\s*$`   with flags re.I and re.M,

and returns group 2 of the match when one exists, otherwise the input
unchanged.  The functions below implement exactly the semantics of Python's
backtracking engine for this one pattern: `re.search` returns the leftmost
position at which the pattern matches, and at that position the alternatives
are explored in backtracking order — the optional `(python)?` prefers
presence, each `\s*` prefers the longest whitespace run, and the greedy
`(.*\n)*` prefers the largest number of complete lines.  Since `.` does not
match a newline, each `(.*\n)` iteration deterministically consumes text up
to and including the next newline.  Group 2 starts where `\s*$` of the
opening fence line matched (just before that line's newline) and ends at the
start of the closing fence line. -/

/-- The backtick character. -/
def BTICK : Char := Char.ofNat 96

/-- The three-backtick fence of CODE_BLOCK_REGEX. -/
def FENCE : List Char := [BTICK, BTICK, BTICK]

/-- The optional language tag, compared case-insensitively (flag re.I). -/
def PYTHON_TAG : Str := ['p', 'y', 't', 'h', 'o', 'n']

/-- A `^` anchor holds at `p` (flag re.M): start of string or after a newline. -/
def atLineStart (x : List Char) (p : Nat) : Bool :=
  p == 0 || x[p - 1]? == some '\n'

/-- The literal `lit` occurs at position `p` of `x`. -/
def litAt (x lit : List Char) (p : Nat) : Bool :=
  (x.drop p).take lit.length == lit

/-- The literal `lit` occurs at position `p` of `x`, case-insensitively
(`lit` given in lower case). -/
def lowerLitAt (x lit : List Char) (p : Nat) : Bool :=
  ((x.drop p).take lit.length).map Char.toLower == lit

/-- A `$` anchor holds at `p` (flag re.M): end of string or before a newline. -/
def dollarAt (x : List Char) (p : Nat) : Bool :=
  p == x.length || x[p]? == some '\n'

/-- Length of the whitespace run starting at position `p` (for `\s*`). -/
def wsRunLen (x : List Char) (p : Nat) : Nat :=
  ((x.drop p).takeWhile isPyWS).length

/-- Index of the first newline of a list, if any. -/
def idxOfNl : List Char → Option Nat
  | [] => none
  | c :: r => if c == '\n' then some 0 else (idxOfNl r).map (· + 1)

/-- All positions reachable from `p` by consuming zero or more `(.*\n)`
iterations, in increasing order.  Each iteration consumes through the next
newline.  Called with `fuel = x.length + 1` the fuel never runs out. -/
def lineStops (x : List Char) : Nat → Nat → List Nat
  | 0, p => [p]
  | fuel + 1, p =>
    p :: (match idxOfNl (x.drop p) with
          | none => []
          | some i => lineStops x fuel (p + i + 1))

/-- The closing fence `^` + three backticks + `\s*$` matches at position `s`.
The pattern ends here, so only existence of a `\s*` length matters. -/
def closingAt (x : List Char) (s : Nat) : Bool :=
  atLineStart x s && litAt x FENCE s &&
    (List.range (wsRunLen x (s + 3) + 1)).any (fun k => dollarAt x (s + 3 + k))

/-- Greedy `((.*\n)*)` from position `r`, then the closing fence: returns the
end position of the largest interior whose end starts a closing fence. -/
def interiorEnd (x : List Char) (r : Nat) : Option Nat :=
  ((lineStops x (x.length + 1) r).reverse).find? (fun s => closingAt x s)

/-- Attempt to match CODE_BLOCK_REGEX at position `p`, in the backtracking
order of Python's engine.  Returns the span `(r, s)` of group 2 on success. -/
def matchAt (x : List Char) (p : Nat) : Option (Nat × Nat) :=
  if atLineStart x p && litAt x FENCE p then
    let starts := if lowerLitAt x PYTHON_TAG (p + 3) then [p + 9, p + 3] else [p + 3]
    starts.findSome? (fun q =>
      ((List.range (wsRunLen x q + 1)).reverse).findSome? (fun k =>
        if dollarAt x (q + k) then
          (interiorEnd x (q + k)).map (fun s => (q + k, s))
        else none))
  else none

/-- Python's `re.search`: the match at the leftmost matching position. -/
def cleanCodeMatch (x : Str) : Option (Nat × Nat) :=
  (List.range (x.length + 1)).findSome? (fun p => matchAt x p)

/-- Model of `clean_code` (main.py lines 19-25): group 2 of the regex match
when the search succeeds, otherwise the input unchanged. -/
def cleanCode (x : Str) : Str :=
  match cleanCodeMatch x with
  | some (r, s) => (x.drop r).take (s - r)
  | none => x

/-! Decimal rendering of retry counters (the f-string interpolation of
`tries` into file stems at main.py lines 94 and 183). -/

/-- The decimal digit characters. -/
def digitChar : Nat → Char
  | 0 => '0' | 1 => '1' | 2 => '2' | 3 => '3' | 4 => '4'
  | 5 => '5' | 6 => '6' | 7 => '7' | 8 => '8' | _ => '9'

/-- Base-10 digits of `n`, least significant first, with fuel (`fuel = n`
always suffices since `n / 10 < n` for positive `n`). -/
def natDigitsF : Nat → Nat → List Nat
  | 0, _ => []
  | fuel + 1, n => if n = 0 then [] else n % 10 :: natDigitsF fuel (n / 10)

/-- Evaluation of a little-endian digit list, inverse of `natDigitsF`. -/
def fromDigits : List Nat → Nat
  | [] => 0
  | d :: ds => d + 10 * fromDigits ds

/-- Decimal representation of `n`, as produced by Python's str(int). -/
def natStr (n : Nat) : Str :=
  if n = 0 then ['0'] else ((natDigitsF n n).map digitChar).reverse

/-! Orchestration model: file names, events, state, environment. -/

/-- A file name in the per-run working directory, split as pathlib does into
stem and suffix; `with_stem` keeps the suffix, `with_name` replaces both. -/
structure FName where
  stem : Str
  ext : Str
deriving DecidableEq, Repr

/-- Which call site produced a generative-model invocation. -/
inductive GenTag
  | initial        -- run, line 266: first code generation
  | staticRepair   -- type_check_and_correct, line 76: repair after mypy fails
  | testGen        -- test_designer_agent, line 147: test generation
  | dynamicRepair  -- run_tests_and_correct, line 234: repair after tests fail
deriving DecidableEq, Repr

/-- What kind of artifact a file write produces. -/
inductive WKind
  | candidate   -- a generated code / code+tests candidate
  | diagnostic  -- a verifier transcript (*_type_errors.txt, *_errors.txt)
  | stubFile    -- the stubgen output (.pyi)
deriving DecidableEq, Repr

/-- Observable events of a pipeline run, in order of occurrence. -/
inductive Event
  | genCall (tag : GenTag)
  | mypyCall (file : FName) (passed : Bool)
  | utestCall (file : FName) (passed : Bool)
  | stubgenCall (file : FName)
  | write (kind : WKind) (name : FName) (content : Str)
deriving DecidableEq, Repr

/-- Run state: call counters for each external tool, the files written so far
(latest write first) and the event trace (oldest first). -/
structure St where
  nLLM : Nat := 0
  nMypy : Nat := 0
  nUtest : Nat := 0
  nStub : Nat := 0
  files : List (FName × Str) := []
  trace : List Event := []
deriving Repr

/-- Append an event to the trace. -/
def St.emit (st : St) (e : Event) : St :=
  { st with trace := st.trace ++ [e] }

/-- Write a file: record the content and trace the write. -/
def St.writeFile (st : St) (k : WKind) (n : FName) (c : Str) : St :=
  { st with files := (n, c) :: st.files, trace := st.trace ++ [Event.write k n c] }

/-- Content of the latest write to `f` (empty if never written). -/
def findFile : List (FName × Str) → FName → Str
  | [], _ => []
  | (n, c) :: rest, f => if n = f then c else findFile rest f

/-- Read a file back (the `open(...)` / `read()` calls of the source). -/
def St.readFile (st : St) (f : FName) : Str :=
  findFile st.files f

/-- The external world: successive values returned by the LLM backend, the
mypy and unittest subprocesses, and stubgen, each indexed by its own call
counter.  Quantifying over `Env` quantifies over every possible sequence of
responses and verdicts. -/
structure Env where
  llm : Nat → Str
  mypy : Nat → Bool
  mypyDiag : Nat → Str
  utest : Nat → Bool
  utestDiag : Nat → Str
  stub : Nat → Str

/-- Model of `programmer_agent` (main.py lines 28-40): one LLM call, then
`clean_code`.  The assembled prompt cannot influence the oracle (which is
indexed by call count), so only the call itself is recorded. -/
def programmerAgent (env : Env) (tag : GenTag) (st : St) : Str × St :=
  let response := env.llm st.nLLM
  let st := { st with nLLM := st.nLLM + 1 }
  let st := st.emit (.genCall tag)
  (cleanCode response, st)

/-- Name of the mypy transcript file (main.py line 74):
`code_file.with_name(code_file.stem + "_type_errors.txt")`. -/
def typeErrorsName (f : FName) : FName :=
  ⟨f.stem ++ ("_type_errors".toList), ".txt".toList⟩

/-- Name of the k-th static-repair candidate (main.py line 94):
`orig_code_file.with_stem(orig_code_file.stem + "_types_retry_" + str(k))`. -/
def retryName (orig : FName) (k : Nat) : FName :=
  ⟨orig.stem ++ ("_types_retry_".toList) ++ natStr k, orig.ext⟩

/-- Loop body of `type_check_and_correct` (main.py lines 56-101).  The source
loops while `tries <= max_retries`; `fuel` equals `max_retries + 1 - tries`,
so `fuel = 0` is exactly the loop condition failing (return None, line 101).
Each iteration runs mypy on the current candidate; on success it returns the
candidate's path (line 100), on failure it increments `tries`, writes the
transcript, asks the programmer agent for a repair and writes it to a fresh
retry-indexed file (lines 69-96). -/
def tcAux (env : Env) (origFile : FName) :
    Nat → Nat → FName → St → Option FName × St
  | 0, _, _, st => (none, st)
  | fuel + 1, tries, codeFile, st =>
    let verdict := env.mypy st.nMypy
    let diag := env.mypyDiag st.nMypy
    let st := ({ st with nMypy := st.nMypy + 1 }).emit (.mypyCall codeFile verdict)
    if verdict then
      (some codeFile, st)
    else
      let tries' := tries + 1
      let _code := st.readFile codeFile
      let st := st.writeFile .diagnostic (typeErrorsName codeFile) diag
      let (newCode, st) := programmerAgent env .staticRepair st
      let codeFile' := retryName origFile tries'
      let st := st.writeFile .candidate codeFile' newCode
      tcAux env origFile fuel tries' codeFile' st

/-- Model of `type_check_and_correct` (main.py lines 43-101). -/
def typeCheckAndCorrect (env : Env) (codeFile : FName) (maxRetries : Nat)
    (st : St) : Option FName × St :=
  tcAux env codeFile (maxRetries + 1) 0 codeFile st

/-- Model of `test_designer_agent` (main.py lines 104-148): run stubgen on
the code file (producing the `.pyi` companion), read the stub, then one LLM
call followed by `clean_code`. -/
def testDesignerAgent (env : Env) (codeFile : FName) (st : St) : Str × St :=
  let st := st.emit (.stubgenCall codeFile)
  let stubContent := env.stub st.nStub
  let st := { st with nStub := st.nStub + 1 }
  let stubName : FName := ⟨codeFile.stem, ".pyi".toList⟩
  let st := st.writeFile .stubFile stubName stubContent
  let _stub := st.readFile stubName
  let response := env.llm st.nLLM
  let st := { st with nLLM := st.nLLM + 1 }
  let st := st.emit (.genCall .testGen)
  (cleanCode response, st)

/-- Name of the combined code+tests candidate of the current test-loop
iteration (main.py lines 182-184). -/
def combinedName (origFile codeFile : FName) (tries : Nat) : FName :=
  ⟨origFile.stem ++ ("_with_tests".toList) ++
      (if 0 < tries then ("_retry_".toList) ++ natStr tries else []),
   codeFile.ext⟩

/-- Name of the unittest transcript file (main.py lines 220-222). -/
def errorsName (f : FName) : FName :=
  ⟨f.stem ++ ("_errors".toList), ".txt".toList⟩

/-- The split of the type-checked combined artifact into code and tests
(main.py lines 196-204).  Python's `[code, test_code] = s.split(sep)` raises
ValueError unless the split has exactly two parts; the handler then treats
the whole artifact as code and rewrites the combined file with the last
known-good test text re-appended. -/
def splitOrFallback (cwt testCode : Str) (cwtFile : FName) (st : St) :
    Str × Str × St :=
  match pySplit TEST_SEP cwt with
  | [a, b] => (a, b, st)
  | _ =>
    let code := cwt
    let st := st.writeFile .candidate cwtFile
        (code ++ GLUE ++ TEST_SEP ++ GLUE ++ testCode)
    (code, testCode, st)

/-- Loop body of `run_tests_and_correct` (main.py lines 179-261).  The
source's `while True` loop increments `tries` on each failing test run and
breaks once `tries > max_retries` (line 226); `fuel` equals
`max_retries + 1 - tries` on entry, which is always positive, so the
`fuel = 0` branch is unreachable.  Each iteration: build and write the
combined artifact, type-check it (its own static stage), split it back into
code and tests (with the fallback), strip both, run unittest; on success
return the code (line 261), on failure write the transcript and either stop
(budget exhausted, line 228) or ask for a repair and continue. -/
def rtcAux (env : Env) (origFile codeFile : FName) (maxRetries : Nat) :
    Nat → Nat → Str → Str → St → Option Str × St
  | 0, _, _, _, st => (none, st)
  | fuel + 1, tries, code, testCode, st =>
    let cwt := code ++ GLUE ++ TEST_SEP ++ GLUE ++ testCode
    let cwtFile := combinedName origFile codeFile tries
    let st := st.writeFile .candidate cwtFile cwt
    match typeCheckAndCorrect env cwtFile maxRetries st with
    | (none, st) => (none, st)
    | (some c, st) =>
      let cwt := st.readFile c
      let (code, testCode, st) := splitOrFallback cwt testCode c st
      let code := pyStrip code
      let testCode := pyStrip testCode
      let verdict := env.utest st.nUtest
      let diag := env.utestDiag st.nUtest
      let st := ({ st with nUtest := st.nUtest + 1 }).emit (.utestCall c verdict)
      if verdict then
        (some code, st)
      else
        let tries' := tries + 1
        let st := st.writeFile .diagnostic (errorsName c) diag
        if maxRetries < tries' then
          (none, st)
        else
          let (code', st) := programmerAgent env .dynamicRepair st
          rtcAux env origFile codeFile maxRetries fuel tries' code' testCode st

/-- Model of `run_tests_and_correct` (main.py lines 151-261): first type-check
the code-only candidate (line 167), then enter the test loop with the
type-checked code and the given test text. -/
def runTestsAndCorrect (env : Env) (codeFile : FName) (testCode : Str)
    (maxRetries : Nat) (st : St) : Option Str × St :=
  match typeCheckAndCorrect env codeFile maxRetries st with
  | (none, st) => (none, st)
  | (some c, st) =>
    let code := st.readFile c
    rtcAux env codeFile c maxRetries (maxRetries + 1) 0 code testCode st

/-- The initial candidate's file, `target/coder_agent/code.py` (line 279). -/
def codeFileName : FName := ⟨"code".toList, ".py".toList⟩

/-- State and test text after the generation prefix of `run` (main.py lines
264-282): generate code, write `code.py`, generate tests. -/
def stPrefix (env : Env) : Str × St :=
  let st : St := {}
  let (code, st) := programmerAgent env .initial st
  let st := st.writeFile .candidate codeFileName code
  testDesignerAgent env codeFileName st

/-- Model of `run` up to and including `run_tests_and_correct`. -/
def pipelineStage (env : Env) (maxRetries : Nat) : Option Str × St :=
  let (testCode, st) := stPrefix env
  runTestsAndCorrect env codeFileName testCode maxRetries st

/-- Model of `run` (main.py lines 264-286): `run_tests_and_correct(...) or ""`
maps a None result (and an empty success) to the empty string. -/
def runPipeline (env : Env) (maxRetries : Nat) : Str × St :=
  match pipelineStage env maxRetries with
  | (some c, st) => (c, st)
  | (none, st) => ([], st)

/-! Concrete environments used by the closed evaluation theorems. -/

/-- Every oracle succeeds; all model responses are empty. -/
def envAllPass : Env :=
  { llm := fun _ => [], mypy := fun _ => true, mypyDiag := fun _ => [],
    utest := fun _ => true, utestDiag := fun _ => [], stub := fun _ => [] }

/-- All verifiers pass; the generator produces code "c", then tests "t". -/
def envCodeTests : Env :=
  { envAllPass with llm := fun n => if n == 0 then ['c'] else ['t'] }

/-- All verifiers pass; the test generator answers with the separator text
itself, so the combined artifact contains the separator twice and the split
of the (unchanged) artifact takes the fallback path. -/
def envSepTests : Env :=
  { envAllPass with llm := fun n => if n == 0 then ['c'] else TEST_SEP }

/-- mypy fails on every invocation. -/
def envMypyFail : Env :=
  { envAllPass with mypy := fun _ => false }

/-- unittest fails on every invocation; everything else succeeds. -/
def envTestsFail : Env :=
  { envAllPass with utest := fun _ => false }

/-! Predicates and counters over traces, and concrete inputs used by the
claim theorems. -/

/-- No position of `x` is a line start carrying the three-backtick fence, so
CODE_BLOCK_REGEX cannot match anywhere in `x`. -/
def noFenceStart (x : Str) : Bool :=
  (List.range (x.length + 1)).all (fun p => !(atLineStart x p && litAt x FENCE p))

/-- The event is a mypy invocation (a static-verifier invocation). -/
def isMypyEv : Event → Bool
  | .mypyCall _ _ => true
  | _ => false

/-- The event is a unittest invocation (a dynamic-verifier invocation). -/
def isUtestEv : Event → Bool
  | .utestCall _ _ => true
  | _ => false

/-- The event is a stubgen invocation. -/
def isStubEv : Event → Bool
  | .stubgenCall _ => true
  | _ => false

/-- The event is the initial code-generation call of `run`. -/
def isInitialGen : Event → Bool
  | .genCall .initial => true
  | _ => false

/-- The event is a repair call of the static type-check loop. -/
def isStaticRepair : Event → Bool
  | .genCall .staticRepair => true
  | _ => false

/-- The event is the test-generation call of `test_designer_agent`. -/
def isTestGenCall : Event → Bool
  | .genCall .testGen => true
  | _ => false

/-- The event is a repair call of the dynamic test loop. -/
def isDynRepair : Event → Bool
  | .genCall .dynamicRepair => true
  | _ => false

/-- The candidate file writes of a trace, in order, as name-content pairs. -/
def candWrites (tr : List Event) : List (FName × Str) :=
  tr.filterMap (fun e =>
    match e with
    | .write .candidate n c => some (n, c)
    | _ => none)

/-- The names of the candidate file writes of a trace, in order. -/
def candNames (tr : List Event) : List FName :=
  (candWrites tr).map Prod.fst

/-- Some candidate file is written twice with different contents (an
already-written candidate is mutated). -/
def hasRewrite : List (FName × Str) → Bool
  | [] => false
  | (n, c) :: rest => rest.any (fun p => p.1 == n && p.2 != c) || hasRewrite rest

/-- Every stubgen invocation of the trace is preceded by an earlier passing
static-verifier invocation (`seen` records whether one has occurred). -/
def stubsAfterPass : List Event → Bool → Bool
  | [], _ => true
  | e :: rest, seen =>
    match e with
    | .stubgenCall _ => seen && stubsAfterPass rest seen
    | .mypyCall _ v => stubsAfterPass rest (seen || v)
    | _ => stubsAfterPass rest seen

/-- Every dynamic-verifier invocation of the trace is preceded by an earlier
passing static-verifier invocation. -/
def goodUtest (tr : List Event) : Prop :=
  ∀ (i : Nat) (f : FName) (v : Bool), tr[i]? = some (Event.utestCall f v) →
    ∃ (j : Nat) (g : FName), j < i ∧ tr[j]? = some (Event.mypyCall g true)

/-- The input "```\na\n```\n```\nb\n```\n" with two complete fenced blocks:
the greedy interior of the first match spans from the first fence line to the
last, so the extraction still contains a complete fenced block. -/
def nestedFences : Str :=
  FENCE ++ ['\n', 'a', '\n'] ++ FENCE ++ ['\n'] ++ FENCE ++ ['\n', 'b', '\n'] ++
    FENCE ++ ['\n']

/-- The well-formed fenced input "```\nfoo\n```". -/
def fencedExample : Str := FENCE ++ ['\n', 'f', 'o', 'o', '\n'] ++ FENCE

/-! Theorems.  First the split/rejoin laws for `pySplit`. -/

theorem pySplitF_ne_nil (sep : List Char) : ∀ fuel x, pySplitF sep fuel x ≠ [] := by
  intro fuel x
  cases fuel with
  | zero => cases x <;> simp [pySplitF]
  | succ f =>
    cases x with
    | nil => simp [pySplitF]
    | cons c rest =>
      simp only [pySplitF]
      split
      · simp
      · split <;> simp

theorem joinSep_cons₂ (sep a : List Char) (l : List (List Char)) (h : l ≠ []) :
    joinSep sep (a :: l) = a ++ sep ++ joinSep sep l := by
  cases l with
  | nil => exact absurd rfl h
  | cons q qs => rfl

theorem joinSep_pySplitF (sep : List Char) (hsep : sep ≠ []) :
    ∀ fuel x, x.length ≤ fuel → joinSep sep (pySplitF sep fuel x) = x := by
  intro fuel
  induction fuel with
  | zero =>
    intro x hx
    have hx0 : x = [] := List.eq_nil_of_length_eq_zero (Nat.le_zero.mp hx)
    subst hx0
    simp [pySplitF, joinSep]
  | succ f ih =>
    intro x hx
    cases x with
    | nil => simp [pySplitF, joinSep]
    | cons c rest =>
      simp only [pySplitF]
      by_cases hp : sep.isPrefixOf (c :: rest)
      · simp only [if_pos hp]
        have hpre : sep <+: (c :: rest) := List.isPrefixOf_iff_prefix.mp hp
        obtain ⟨t, ht⟩ := hpre
        have hdrop : (c :: rest).drop sep.length = t := by
          rw [← ht]
          exact List.drop_left sep t
        have hs : 1 ≤ sep.length := by
          cases sep with
          | nil => exact absurd rfl hsep
          | cons s ss => simp
        have hlen : t.length ≤ f := by
          have hlt := congrArg List.length ht
          simp only [List.length_append, List.length_cons] at hlt
          simp only [List.length_cons] at hx
          omega
        rw [hdrop, joinSep_cons₂ sep [] _ (pySplitF_ne_nil sep f t), ih t hlen]
        simpa using ht
      · simp only [if_neg hp]
        have hlen : rest.length ≤ f := by
          simp only [List.length_cons] at hx
          omega
        have hjoin := ih rest hlen
        rcases hq : pySplitF sep f rest with _ | ⟨p, ps⟩
        · exact absurd hq (pySplitF_ne_nil sep f rest)
        · rw [hq] at hjoin
          cases ps with
          | nil =>
            simp only [joinSep] at hjoin ⊢
            rw [hjoin]
          | cons q qs =>
            rw [joinSep_cons₂ sep p (q :: qs) (by simp)] at hjoin
            rw [joinSep_cons₂ sep (c :: p) (q :: qs) (by simp)]
            simp only [List.cons_append, List.append_assoc] at hjoin ⊢
            rw [hjoin]

theorem length_pySplitF (sep : List Char) :
    ∀ fuel x, (pySplitF sep fuel x).length = countOccF sep fuel x + 1 := by
  intro fuel
  induction fuel with
  | zero => intro x; cases x <;> simp [pySplitF, countOccF]
  | succ f ih =>
    intro x
    cases x with
    | nil => simp [pySplitF, countOccF]
    | cons c rest =>
      simp only [pySplitF, countOccF]
      by_cases hp : sep.isPrefixOf (c :: rest)
      · simp only [if_pos hp, List.length_cons, ih]
      · simp only [if_neg hp]
        rcases hq : pySplitF sep f rest with _ | ⟨p, ps⟩
        · exact absurd hq (pySplitF_ne_nil sep f rest)
        · have := ih rest
          rw [hq] at this
          simpa using this

theorem pySplit_of_countOcc_zero (sep : List Char) (hsep : sep ≠ []) (x : List Char)
    (h : countOcc sep x = 0) : pySplit sep x = [x] := by
  have hlen : (pySplit sep x).length = 1 := by
    unfold pySplit
    rw [length_pySplitF]
    unfold countOcc at h
    omega
  rcases hq : pySplit sep x with _ | ⟨a, as⟩
  · rw [hq] at hlen; simp at hlen
  · rcases as with _ | ⟨b, bs⟩
    · have hj := joinSep_pySplitF sep hsep x.length x le_rfl
      unfold pySplit at hq
      rw [hq] at hj
      simp only [joinSep] at hj
      rw [hj]
    · rw [hq] at hlen; simp at hlen

/-- C5: for every combined code+tests artifact in which the separator occurs
exactly once, splitting on the separator yields exactly two parts and
rejoining the parts around the separator reproduces the original artifact
byte for byte. -/
theorem C5_split_rejoin_roundtrip (x : Str) (h : countOcc TEST_SEP x = 1) :
    ∃ a b, pySplit TEST_SEP x = [a, b] ∧ a ++ TEST_SEP ++ b = x := by
  have hsep : TEST_SEP ≠ ([] : List Char) := by decide
  have hlen : (pySplit TEST_SEP x).length = 2 := by
    unfold pySplit
    rw [length_pySplitF]
    unfold countOcc at h
    omega
  rcases hq : pySplit TEST_SEP x with _ | ⟨a, as⟩
  · rw [hq] at hlen; simp at hlen
  · rcases as with _ | ⟨b, bs⟩
    · rw [hq] at hlen; simp at hlen
    · rcases bs with _ | ⟨c, cs⟩
      · refine ⟨a, b, rfl, ?_⟩
        have hj := joinSep_pySplitF TEST_SEP hsep x.length x le_rfl
        unfold pySplit at hq
        rw [hq] at hj
        simpa [joinSep, List.append_assoc] using hj
      · rw [hq] at hlen; simp at hlen

/-- Witness for C5 at the concrete artifact "A## TestsB". -/
theorem C5_split_rejoin_roundtrip_witness :
    countOcc TEST_SEP ('A' :: (TEST_SEP ++ ['B'])) = 1 ∧
      ∃ a b, pySplit TEST_SEP ('A' :: (TEST_SEP ++ ['B'])) = [a, b] ∧
        a ++ TEST_SEP ++ b = 'A' :: (TEST_SEP ++ ['B']) :=
  ⟨by decide, C5_split_rejoin_roundtrip _ (by decide)⟩

/-- C6: when the separator is absent from the repair response, the fallback
path of the split (main.py lines 199-204) treats the whole response as
replacement code, keeps the in-memory last known-good test text unchanged,
and rewrites the combined artifact with that test text re-appended verbatim
after the separator. -/
theorem C6_fallback_preserves_tests (cwt t : Str) (f : FName) (st : St)
    (h : countOcc TEST_SEP cwt = 0) :
    splitOrFallback cwt t f st =
      (cwt, t, st.writeFile .candidate f (cwt ++ GLUE ++ TEST_SEP ++ GLUE ++ t)) := by
  unfold splitOrFallback
  rw [pySplit_of_countOcc_zero TEST_SEP (by decide) cwt h]

/-- Witness for C6 at the concrete response "x" and test text "t". -/
theorem C6_fallback_preserves_tests_witness :
    countOcc TEST_SEP ['x'] = 0 ∧
      splitOrFallback ['x'] ['t'] codeFileName {} =
        (['x'], ['t'], St.writeFile {} .candidate codeFileName
          (['x'] ++ GLUE ++ TEST_SEP ++ GLUE ++ ['t'])) :=
  ⟨by decide, C6_fallback_preserves_tests ['x'] ['t'] codeFileName {} (by decide)⟩

/-! The code extractor: helper lemma, then C7 and C8. -/

theorem cleanCodeMatch_eq_none_of_noFence (x : Str) (h : noFenceStart x = true) :
    cleanCodeMatch x = none := by
  unfold cleanCodeMatch
  rw [List.findSome?_eq_none_iff]
  intro p hp
  have hc : (atLineStart x p && litAt x FENCE p) = false := by
    have hb := (List.all_eq_true.mp h) p hp
    revert hb
    cases atLineStart x p && litAt x FENCE p <;> simp
  simp [matchAt, hc]

/-- For inputs in which no line starts with the three-backtick fence, the
extractor is the identity: the regex cannot match, and `clean_code` returns
its input unchanged. -/
theorem cleanCode_of_noFenceStart (x : Str) (h : noFenceStart x = true) :
    cleanCode x = x := by
  unfold cleanCode
  rw [cleanCodeMatch_eq_none_of_noFence x h]

/-- C7 counterexample: the extractor is not idempotent.  On the input
"```\na\n```\n```\nb\n```\n" the greedy interior of the first match spans
from the first fence line to the last closing fence, so the extraction
"\na\n```\n```\nb\n" still contains a complete fenced block, and a second
extraction returns "\n". -/
theorem C7_idempotence_counterexample :
    cleanCode (cleanCode nestedFences) ≠ cleanCode nestedFences := by decide

/-- C7 amended: the extractor is idempotent on every input whose extraction
contains no line starting with the three-backtick fence (in particular on
every well-formed single-fenced-block input); it is not idempotent in
general. -/
theorem C7_idempotent_amended (x : Str) (h : noFenceStart (cleanCode x) = true) :
    cleanCode (cleanCode x) = cleanCode x :=
  cleanCode_of_noFenceStart _ h

/-- Witness for the amended C7 at the input "```\nfoo\n```". -/
theorem C7_idempotent_amended_witness :
    noFenceStart (cleanCode fencedExample) = true ∧
      cleanCode (cleanCode fencedExample) = cleanCode fencedExample :=
  ⟨by decide, C7_idempotent_amended fencedExample (by decide)⟩

/-- C8 counterexample: on the fence-free input " x" the extractor returns the
input unchanged, not whitespace-trimmed (and hence not the trimmed value
" x".strip() = "x" that the claim requires). -/
theorem C8_no_trim_counterexample :
    cleanCode [' ', 'x'] = [' ', 'x'] ∧ cleanCode [' ', 'x'] ≠ pyStrip [' ', 'x'] :=
  ⟨by decide, by decide⟩

/-- C8 amended: when the regex search succeeds the extractor returns group 2
of the match verbatim; otherwise it returns the input unchanged — no fence
stripping or whitespace trimming happens, and in particular every input with
no line-starting fence is returned unchanged. -/
theorem C8_extractor_contract_amended :
    (∀ (x : Str) (r s : Nat), cleanCodeMatch x = some (r, s) →
        cleanCode x = (x.drop r).take (s - r)) ∧
      (∀ x : Str, cleanCodeMatch x = none → cleanCode x = x) ∧
      (∀ x : Str, noFenceStart x = true → cleanCode x = x) := by
  refine ⟨?_, ?_, cleanCode_of_noFenceStart⟩
  · intro x r s h
    unfold cleanCode
    rw [h]
  · intro x h
    unfold cleanCode
    rw [h]

/-- Witness for the amended C8: the fenced input "```\nfoo\n```" matches with
group 2 spanning positions 3 to 8, and the fence-free input " x" is returned
unchanged. -/
theorem C8_extractor_contract_amended_witness :
    cleanCodeMatch fencedExample = some (3, 8) ∧
      cleanCode fencedExample = ['\n', 'f', 'o', 'o', '\n'] ∧
      noFenceStart ([' ', 'x'] : Str) = true ∧
      cleanCode [' ', 'x'] = [' ', 'x'] :=
  ⟨by decide,
   by rw [C8_extractor_contract_amended.1 fencedExample 3 8 (by decide)]; decide,
   by decide,
   C8_extractor_contract_amended.2.2 [' ', 'x'] (by decide)⟩

/-! Injectivity of the decimal rendering, used to show retry-indexed file
names are pairwise distinct. -/

theorem fromDigits_natDigitsF : ∀ fuel n, n ≤ fuel → fromDigits (natDigitsF fuel n) = n := by
  intro fuel
  induction fuel with
  | zero =>
    intro n hn
    have h0 : n = 0 := Nat.le_zero.mp hn
    subst h0
    simp [natDigitsF, fromDigits]
  | succ f ih =>
    intro n hn
    by_cases h0 : n = 0
    · subst h0; simp [natDigitsF, fromDigits]
    · simp only [natDigitsF, if_neg h0, fromDigits]
      have hdiv : n / 10 ≤ f := by
        have := Nat.div_lt_self (Nat.pos_of_ne_zero h0) (by omega : 1 < 10)
        omega
      rw [ih _ hdiv]
      exact Nat.mod_add_div n 10

theorem natDigitsF_lt10 : ∀ fuel n d, d ∈ natDigitsF fuel n → d < 10 := by
  intro fuel
  induction fuel with
  | zero => intro n d hd; simp [natDigitsF] at hd
  | succ f ih =>
    intro n d hd
    by_cases h0 : n = 0
    · rw [h0] at hd; simp [natDigitsF] at hd
    · simp only [natDigitsF, if_neg h0, List.mem_cons] at hd
      rcases hd with h | h
      · subst h; exact Nat.mod_lt _ (by omega)
      · exact ih _ _ h

theorem digitChar_inj10 : ∀ d, d < 10 → ∀ e, e < 10 → digitChar d = digitChar e → d = e := by
  decide

theorem map_digitChar_inj : ∀ xs ys : List Nat, (∀ d ∈ xs, d < 10) → (∀ d ∈ ys, d < 10) →
    xs.map digitChar = ys.map digitChar → xs = ys := by
  intro xs
  induction xs with
  | nil =>
    intro ys _ _ h
    cases ys with
    | nil => rfl
    | cons b u => simp at h
  | cons a t ih =>
    intro ys hx hy h
    cases ys with
    | nil => simp at h
    | cons b u =>
      simp only [List.map_cons, List.cons.injEq] at h
      have ha : a = b := digitChar_inj10 a (hx a (by simp)) b (hy b (by simp)) h.1
      have ht := ih u (fun d hd => hx d (by simp [hd])) (fun d hd => hy d (by simp [hd])) h.2
      rw [ha, ht]

theorem natStr_zero_ne (b : Nat) (hb : b ≠ 0) : natStr 0 ≠ natStr b := by
  intro h
  unfold natStr at h
  rw [if_pos rfl, if_neg hb] at h
  have h2 : (natDigitsF b b).map digitChar = ['0'] := by
    have := congrArg List.reverse h
    simpa using this.symm
  rcases hds : natDigitsF b b with _ | ⟨d, ds⟩
  · rw [hds] at h2; simp at h2
  · rw [hds] at h2
    simp only [List.map_cons, List.cons.injEq] at h2
    have hds0 : ds = [] := List.map_eq_nil.mp h2.2
    have hd10 : d < 10 := natDigitsF_lt10 b b d (by rw [hds]; simp)
    have hd0 : d = 0 := digitChar_inj10 d hd10 0 (by omega) (by simpa [digitChar] using h2.1)
    have hfrom := fromDigits_natDigitsF b b le_rfl
    rw [hds, hds0, hd0] at hfrom
    simp [fromDigits] at hfrom
    exact hb hfrom.symm

theorem natStr_inj : ∀ a b : Nat, natStr a = natStr b → a = b := by
  intro a b h
  by_cases ha : a = 0
  · by_cases hb : b = 0
    · rw [ha, hb]
    · subst ha; exact absurd h (natStr_zero_ne b hb)
  · by_cases hb : b = 0
    · subst hb; exact absurd h.symm (natStr_zero_ne a ha)
    · unfold natStr at h
      rw [if_neg ha, if_neg hb] at h
      have h2 := List.reverse_injective h
      have h3 := map_digitChar_inj _ _ (fun d hd => natDigitsF_lt10 a a d hd)
        (fun d hd => natDigitsF_lt10 b b d hd) h2
      have e1 := fromDigits_natDigitsF a a le_rfl
      have e2 := fromDigits_natDigitsF b b le_rfl
      rw [← e1, ← e2, h3]

theorem natStr_ne_nil (n : Nat) : natStr n ≠ [] := by
  unfold natStr
  by_cases h0 : n = 0
  · simp [h0]
  · rw [if_neg h0]
    intro hc
    have h2 : (natDigitsF n n).map digitChar = [] := by
      simpa using congrArg List.reverse hc
    have h3 : natDigitsF n n = [] := List.map_eq_nil.mp h2
    have hfrom := fromDigits_natDigitsF n n le_rfl
    rw [h3] at hfrom
    simp [fromDigits] at hfrom
    exact h0 hfrom.symm

theorem retryName_inj (orig : FName) : Function.Injective (retryName orig) := by
  intro a b h
  have hstem := congrArg FName.stem h
  simp only [retryName] at hstem
  have h2 := List.append_cancel_left hstem
  exact natStr_inj a b h2

theorem retryName_ne (orig : FName) (k : Nat) : retryName orig k ≠ orig := by
  intro h
  have hstem := congrArg FName.stem h
  simp only [retryName] at hstem
  have hlen := congrArg List.length hstem
  simp only [List.length_append] at hlen
  have hk : (natStr k).length ≠ 0 := fun h0 =>
    natStr_ne_nil k (List.eq_nil_of_length_eq_zero h0)
  have htag : ("_types_retry_".toList : List Char).length = 13 := by decide
  omega

/-- Trace growth of the static type-check loop: starting from any state, the
loop appends events consisting of at most `fuel` mypy invocations and at most
`fuel` static-repair generator calls, no dynamic-verifier, dynamic-repair,
test-generation, initial-generation or stubgen events, and candidate writes
named exactly `retryName orig (tries+1), ..., retryName orig (tries+m)` for
some `m ≤ fuel`. -/
theorem tcAux_trace (env : Env) (orig : FName) :
    ∀ (fuel tries : Nat) (cf : FName) (st : St), ∃ E m,
      (tcAux env orig fuel tries cf st).2.trace = st.trace ++ E ∧
      m ≤ fuel ∧
      candNames E = (List.range' (tries + 1) m).map (retryName orig) ∧
      List.countP isMypyEv E ≤ fuel ∧
      List.countP isStaticRepair E ≤ fuel ∧
      List.countP isUtestEv E = 0 ∧
      List.countP isDynRepair E = 0 ∧
      List.countP isTestGenCall E = 0 ∧
      List.countP isInitialGen E = 0 ∧
      List.countP isStubEv E = 0 := by
  intro fuel tries cf st
  induction fuel, tries, cf, st using tcAux.induct env orig with
  | case1 tries cf st =>
    exact ⟨[], 0, by simp [tcAux], by omega, by simp [candNames, candWrites], by simp,
      by simp, by simp, by simp, by simp, by simp, by simp⟩
  | case2 fuel tries cf st verdict hv =>
    have hv' : env.mypy st.nMypy = true := hv
    refine ⟨[Event.mypyCall cf true], 0, ?_, by omega, ?_, ?_, ?_, ?_, ?_, ?_, ?_, ?_⟩
    · simp [tcAux, hv', St.emit]
    · simp [candNames, candWrites]
    · simp [isMypyEv]
    · simp [isStaticRepair]
    · simp [isUtestEv]
    · simp [isDynRepair]
    · simp [isTestGenCall]
    · simp [isInitialGen]
    · simp [isStubEv]
  | case3 fuel tries cf st verdict diag st1 hv tries' st2 newCode st3 hPA cf' st4 ih =>
    have hv' : env.mypy st.nMypy = false := by
      cases h : env.mypy st.nMypy
      · rfl
      · exact absurd h hv
    obtain ⟨E', m', hTr, hm, hCand, hMy, hSR, hU, hD, hT, hI, hS⟩ := ih
    have hst3 := congrArg Prod.snd hPA
    simp only [programmerAgent] at hst3
    simp only [st4, cf', tries', st2, st1, verdict, diag, St.writeFile, St.emit, hv']
      at hTr hst3 hPA
    refine ⟨[Event.mypyCall cf false,
         Event.write .diagnostic (typeErrorsName cf) (env.mypyDiag st.nMypy),
         Event.genCall .staticRepair,
         Event.write .candidate (retryName orig (tries + 1)) newCode] ++ E',
      m' + 1, ?_, by omega, ?_, ?_, ?_, ?_, ?_, ?_, ?_, ?_⟩
    · simp only [tcAux, hv', Bool.false_eq_true, if_false, St.writeFile, St.emit, hPA]
      rw [hTr, ← hst3]
      simp
    · simp only [candNames, candWrites, List.filterMap_append, List.map_append] at hCand ⊢
      simp only [tries'] at hCand
      simp [hCand, List.range'_succ]
    · simp [List.countP_append, List.countP_cons, isMypyEv] at hMy ⊢
      omega
    · simp [List.countP_append, List.countP_cons, isStaticRepair] at hSR ⊢
      omega
    · simpa [List.countP_append, List.countP_cons, isUtestEv] using hU
    · simpa [List.countP_append, List.countP_cons, isDynRepair] using hD
    · simpa [List.countP_append, List.countP_cons, isTestGenCall] using hT
    · simpa [List.countP_append, List.countP_cons, isInitialGen] using hI
    · simpa [List.countP_append, List.countP_cons, isStubEv] using hS

/-- When the static type-check loop returns a path (success), its final trace
contains a passing mypy invocation. -/
theorem tcAux_success_mypy (env : Env) (orig : FName) :
    ∀ (fuel tries : Nat) (cf : FName) (st : St), ∀ (f : FName) (st' : St),
      tcAux env orig fuel tries cf st = (some f, st') →
      ∃ (j : Nat) (g : FName), st'.trace[j]? = some (Event.mypyCall g true) := by
  intro fuel tries cf st
  induction fuel, tries, cf, st using tcAux.induct env orig with
  | case1 tries cf st =>
    intro f st' h
    simp [tcAux] at h
  | case2 fuel tries cf st verdict hv =>
    intro f st' h
    have hv' : env.mypy st.nMypy = true := hv
    simp only [tcAux, hv', if_true, St.emit, Prod.mk.injEq, Option.some.injEq] at h
    obtain ⟨h1, h2⟩ := h
    subst h2
    refine ⟨st.trace.length, cf, ?_⟩
    simpa using List.getElem?_concat_length st.trace (Event.mypyCall cf true)
  | case3 fuel tries cf st verdict diag st1 hv tries' st2 newCode st3 hPA cf' st4 ih =>
    intro f st' h
    have hv' : env.mypy st.nMypy = false := by
      cases hx : env.mypy st.nMypy
      · rfl
      · exact absurd hx hv
    simp only [st4, cf', tries', st2, st1, verdict, diag, St.writeFile, St.emit, hv']
      at ih hPA
    simp only [tcAux, hv', Bool.false_eq_true, if_false, St.writeFile, St.emit, hPA] at h
    exact ih f st' h

/-- Wrapper form of the trace-growth lemma for `type_check_and_correct` with
budget `N`: at most `N+1` mypy invocations and `N+1` static repairs are added,
and no dynamic-stage, test-generation, initial-generation or stubgen events. -/
theorem typeCheckAndCorrect_trace (env : Env) (f : FName) (N : Nat) (st : St)
    (res : Option FName) (st₂ : St) (h : typeCheckAndCorrect env f N st = (res, st₂)) :
    ∃ E, st₂.trace = st.trace ++ E ∧
      List.countP isMypyEv E ≤ N + 1 ∧
      List.countP isStaticRepair E ≤ N + 1 ∧
      List.countP isUtestEv E = 0 ∧
      List.countP isDynRepair E = 0 ∧
      List.countP isTestGenCall E = 0 ∧
      List.countP isInitialGen E = 0 ∧
      List.countP isStubEv E = 0 := by
  obtain ⟨E, m, hTr, hm, hCand, h4, h5, h6, h7, h8, h9, h10⟩ :=
    tcAux_trace env f (N + 1) 0 f st
  have h2 := congrArg Prod.snd h
  simp only [typeCheckAndCorrect] at h2
  refine ⟨E, ?_, h4, h5, h6, h7, h8, h9, h10⟩
  rw [← h2]
  exact hTr

/-- Wrapper form of the success lemma for `type_check_and_correct`. -/
theorem typeCheckAndCorrect_success_mypy (env : Env) (f : FName) (N : Nat) (st : St)
    (c : FName) (st₂ : St) (h : typeCheckAndCorrect env f N st = (some c, st₂)) :
    ∃ (j : Nat) (g : FName), st₂.trace[j]? = some (Event.mypyCall g true) := by
  unfold typeCheckAndCorrect at h
  exact tcAux_success_mypy env f (N + 1) 0 f st c st₂ h

/-- The split step of the test loop appends at most one candidate write (the
fallback rewrite) and never appends verifier or generator events. -/
theorem splitOrFallback_trace (cwt t : Str) (f : FName) (st : St) :
    ∃ E, (splitOrFallback cwt t f st).2.2.trace = st.trace ++ E ∧
      List.countP isUtestEv E = 0 ∧
      List.countP isDynRepair E = 0 ∧
      List.countP isTestGenCall E = 0 ∧
      List.countP isInitialGen E = 0 ∧
      List.countP isStubEv E = 0 := by
  unfold splitOrFallback
  split
  · exact ⟨[], by simp, by simp, by simp, by simp, by simp⟩
  · exact ⟨[Event.write .candidate f (cwt ++ GLUE ++ TEST_SEP ++ GLUE ++ t)],
      by simp [St.writeFile], by simp [List.countP_cons, isUtestEv],
      by simp [List.countP_cons, isDynRepair], by simp [List.countP_cons, isTestGenCall],
      by simp [List.countP_cons, isInitialGen], by simp [List.countP_cons, isStubEv]⟩

/-- Trace growth of the dynamic test loop: starting from any state, at most
`fuel` unittest invocations and at most `maxRetries - tries` dynamic-repair
generator calls are added, and no test-generation, initial-generation or
stubgen events. -/
theorem rtcAux_trace (env : Env) (orig cfile : FName) (N : Nat) :
    ∀ (fuel tries : Nat) (code testCode : Str) (st : St), ∃ E,
      (rtcAux env orig cfile N fuel tries code testCode st).2.trace = st.trace ++ E ∧
      List.countP isUtestEv E ≤ fuel ∧
      List.countP isDynRepair E ≤ N - tries ∧
      List.countP isTestGenCall E = 0 ∧
      List.countP isInitialGen E = 0 ∧
      List.countP isStubEv E = 0 := by
  intro fuel tries code testCode st
  induction fuel, tries, code, testCode, st using rtcAux.induct env orig cfile N with
  | case1 tries code testCode st =>
    exact ⟨[], by simp [rtcAux], by simp, by simp, by simp, by simp, by simp⟩
  | case2 fuel tries code testCode st cwt cwtFile st1 st2 hTC =>
    simp only [cwtFile, cwt, st1] at hTC
    obtain ⟨E1, hTr1, _, _, hU1, hD1, hT1, hI1, hS1⟩ :=
      typeCheckAndCorrect_trace env _ N _ none st2 hTC
    refine ⟨Event.write .candidate (combinedName orig cfile tries)
        (code ++ GLUE ++ TEST_SEP ++ GLUE ++ testCode) :: E1, ?_, ?_, ?_, ?_, ?_, ?_⟩
    · simp only [rtcAux, hTC]
      rw [hTr1]
      simp [St.writeFile]
    · rw [List.countP_cons_of_neg _ _ (by simp [isUtestEv])]
      omega
    · rw [List.countP_cons_of_neg _ _ (by simp [isDynRepair])]
      omega
    · rw [List.countP_cons_of_neg _ _ (by simp [isTestGenCall])]
      exact hT1
    · rw [List.countP_cons_of_neg _ _ (by simp [isInitialGen])]
      exact hI1
    · rw [List.countP_cons_of_neg _ _ (by simp [isStubEv])]
      exact hS1
  | case3 fuel tries code testCode st cwt cwtFile st1 c st2 hTC cwt2 code1 testCode1 st3 hSF verdict hv =>
    have hv' : env.utest st3.nUtest = true := hv
    simp only [cwtFile, cwt, st1] at hTC
    simp only [cwt2] at hSF
    obtain ⟨E1, hTr1, _, _, hU1, hD1, hT1, hI1, hS1⟩ :=
      typeCheckAndCorrect_trace env _ N _ (some c) st2 hTC
    obtain ⟨E2, hTr2, hU2, hD2, hT2, hI2, hS2⟩ :=
      splitOrFallback_trace (st2.readFile c) testCode c st2
    have hst3 : (splitOrFallback (st2.readFile c) testCode c st2).2.2 = st3 := by
      rw [hSF]
    rw [hst3] at hTr2
    refine ⟨Event.write .candidate (combinedName orig cfile tries)
        (code ++ GLUE ++ TEST_SEP ++ GLUE ++ testCode) ::
        (E1 ++ (E2 ++ [Event.utestCall c true])), ?_, ?_, ?_, ?_, ?_, ?_⟩
    · simp only [rtcAux, hTC, hSF, hv', if_true, St.emit]
      simp only [hTr2, hTr1]
      simp [St.writeFile]
    · rw [List.countP_cons_of_neg _ _ (by simp [isUtestEv]), List.countP_append,
        List.countP_append]
      have : List.countP isUtestEv [Event.utestCall c true] = 1 := by
        simp [List.countP_cons, isUtestEv]
      omega
    · rw [List.countP_cons_of_neg _ _ (by simp [isDynRepair]), List.countP_append,
        List.countP_append]
      have : List.countP isDynRepair [Event.utestCall c true] = 0 := by
        simp [List.countP_cons, isDynRepair]
      omega
    · rw [List.countP_cons_of_neg _ _ (by simp [isTestGenCall]), List.countP_append,
        List.countP_append]
      have : List.countP isTestGenCall [Event.utestCall c true] = 0 := by
        simp [List.countP_cons, isTestGenCall]
      omega
    · rw [List.countP_cons_of_neg _ _ (by simp [isInitialGen]), List.countP_append,
        List.countP_append]
      have : List.countP isInitialGen [Event.utestCall c true] = 0 := by
        simp [List.countP_cons, isInitialGen]
      omega
    · rw [List.countP_cons_of_neg _ _ (by simp [isStubEv]), List.countP_append,
        List.countP_append]
      have : List.countP isStubEv [Event.utestCall c true] = 0 := by
        simp [List.countP_cons, isStubEv]
      omega
  | case4 fuel tries code testCode st cwt cwtFile st1 c st2 hTC cwt2 code1 testCode1 st3 hSF verdict hv tries' hBr =>
    have hv' : env.utest st3.nUtest = false := by
      cases hx : env.utest st3.nUtest
      · rfl
      · exact absurd hx hv
    have hBr' : N < tries + 1 := hBr
    simp only [cwtFile, cwt, st1] at hTC
    simp only [cwt2] at hSF
    obtain ⟨E1, hTr1, _, _, hU1, hD1, hT1, hI1, hS1⟩ :=
      typeCheckAndCorrect_trace env _ N _ (some c) st2 hTC
    obtain ⟨E2, hTr2, hU2, hD2, hT2, hI2, hS2⟩ :=
      splitOrFallback_trace (st2.readFile c) testCode c st2
    have hst3 : (splitOrFallback (st2.readFile c) testCode c st2).2.2 = st3 := by
      rw [hSF]
    rw [hst3] at hTr2
    refine ⟨Event.write .candidate (combinedName orig cfile tries)
        (code ++ GLUE ++ TEST_SEP ++ GLUE ++ testCode) ::
        (E1 ++ (E2 ++ [Event.utestCall c false,
          Event.write .diagnostic (errorsName c) (env.utestDiag st3.nUtest)])),
      ?_, ?_, ?_, ?_, ?_, ?_⟩
    · simp only [rtcAux, hTC, hSF, hv', Bool.false_eq_true, if_false, hBr', if_true]
      simp only [St.emit, St.writeFile]
      simp only [hTr2, hTr1]
      simp [St.writeFile]
    · rw [List.countP_cons_of_neg _ _ (by simp [isUtestEv]), List.countP_append,
        List.countP_append]
      have : List.countP isUtestEv [Event.utestCall c false,
          Event.write .diagnostic (errorsName c) (env.utestDiag st3.nUtest)] = 1 := by
        simp [List.countP_cons, isUtestEv]
      omega
    · rw [List.countP_cons_of_neg _ _ (by simp [isDynRepair]), List.countP_append,
        List.countP_append]
      have : List.countP isDynRepair [Event.utestCall c false,
          Event.write .diagnostic (errorsName c) (env.utestDiag st3.nUtest)] = 0 := by
        simp [List.countP_cons, isDynRepair]
      omega
    · rw [List.countP_cons_of_neg _ _ (by simp [isTestGenCall]), List.countP_append,
        List.countP_append]
      have : List.countP isTestGenCall [Event.utestCall c false,
          Event.write .diagnostic (errorsName c) (env.utestDiag st3.nUtest)] = 0 := by
        simp [List.countP_cons, isTestGenCall]
      omega
    · rw [List.countP_cons_of_neg _ _ (by simp [isInitialGen]), List.countP_append,
        List.countP_append]
      have : List.countP isInitialGen [Event.utestCall c false,
          Event.write .diagnostic (errorsName c) (env.utestDiag st3.nUtest)] = 0 := by
        simp [List.countP_cons, isInitialGen]
      omega
    · rw [List.countP_cons_of_neg _ _ (by simp [isStubEv]), List.countP_append,
        List.countP_append]
      have : List.countP isStubEv [Event.utestCall c false,
          Event.write .diagnostic (errorsName c) (env.utestDiag st3.nUtest)] = 0 := by
        simp [List.countP_cons, isStubEv]
      omega
  | case5 fuel tries code testCode st cwt cwtFile st1 c st2 hTC cwt2 code1 testCode1 st3 hSF testCode2 verdict diag st4 hv tries' st5 hBr newCode st6 hPA ih =>
    have hv' : env.utest st3.nUtest = false := by
      cases hx : env.utest st3.nUtest
      · rfl
      · exact absurd hx hv
    have hBr' : ¬N < tries + 1 := hBr
    simp only [cwtFile, cwt, st1] at hTC
    simp only [cwt2] at hSF
    obtain ⟨E1, hTr1, _, _, hU1, hD1, hT1, hI1, hS1⟩ :=
      typeCheckAndCorrect_trace env _ N _ (some c) st2 hTC
    obtain ⟨E2, hTr2, hU2, hD2, hT2, hI2, hS2⟩ :=
      splitOrFallback_trace (st2.readFile c) testCode c st2
    have hst3 : (splitOrFallback (st2.readFile c) testCode c st2).2.2 = st3 := by
      rw [hSF]
    rw [hst3] at hTr2
    have hst6 : (programmerAgent env GenTag.dynamicRepair st5).2 = st6 :=
      congrArg Prod.snd hPA
    simp only [st5, st4, tries', diag, verdict] at hPA
    simp only [hv'] at hPA
    simp only [tries', testCode2] at ih
    obtain ⟨E3, hTr3, hU3, hD3, hT3, hI3, hS3⟩ := ih
    refine ⟨Event.write .candidate (combinedName orig cfile tries)
        (code ++ GLUE ++ TEST_SEP ++ GLUE ++ testCode) ::
        (E1 ++ (E2 ++ ([Event.utestCall c false,
          Event.write .diagnostic (errorsName c) (env.utestDiag st3.nUtest),
          Event.genCall .dynamicRepair] ++ E3))), ?_, ?_, ?_, ?_, ?_, ?_⟩
    · simp only [rtcAux, hTC, hSF, hv', Bool.false_eq_true, if_false, hBr']
      simp only [hPA]
      rw [hTr3, ← hst6]
      simp only [programmerAgent, St.emit]
      simp only [st5, st4, tries', diag, verdict]
      simp only [hv', St.writeFile, St.emit]
      simp only [hTr2, hTr1]
      simp [St.writeFile]
    · rw [List.countP_cons_of_neg _ _ (by simp [isUtestEv]), List.countP_append,
        List.countP_append, List.countP_append]
      have h1 : List.countP isUtestEv [Event.utestCall c false,
          Event.write .diagnostic (errorsName c) (env.utestDiag st3.nUtest),
          Event.genCall .dynamicRepair] = 1 := by
        simp [List.countP_cons, isUtestEv]
      omega
    · rw [List.countP_cons_of_neg _ _ (by simp [isDynRepair]), List.countP_append,
        List.countP_append, List.countP_append]
      have h1 : List.countP isDynRepair [Event.utestCall c false,
          Event.write .diagnostic (errorsName c) (env.utestDiag st3.nUtest),
          Event.genCall .dynamicRepair] = 1 := by
        simp [List.countP_cons, isDynRepair]
      omega
    · rw [List.countP_cons_of_neg _ _ (by simp [isTestGenCall]), List.countP_append,
        List.countP_append, List.countP_append]
      have h1 : List.countP isTestGenCall [Event.utestCall c false,
          Event.write .diagnostic (errorsName c) (env.utestDiag st3.nUtest),
          Event.genCall .dynamicRepair] = 0 := by
        simp [List.countP_cons, isTestGenCall]
      omega
    · rw [List.countP_cons_of_neg _ _ (by simp [isInitialGen]), List.countP_append,
        List.countP_append, List.countP_append]
      have h1 : List.countP isInitialGen [Event.utestCall c false,
          Event.write .diagnostic (errorsName c) (env.utestDiag st3.nUtest),
          Event.genCall .dynamicRepair] = 0 := by
        simp [List.countP_cons, isInitialGen]
      omega
    · rw [List.countP_cons_of_neg _ _ (by simp [isStubEv]), List.countP_append,
        List.countP_append, List.countP_append]
      have h1 : List.countP isStubEv [Event.utestCall c false,
          Event.write .diagnostic (errorsName c) (env.utestDiag st3.nUtest),
          Event.genCall .dynamicRepair] = 0 := by
        simp [List.countP_cons, isStubEv]
      omega

/-- Trace growth of `run_tests_and_correct` with budget `N`: at most `N+1`
dynamic-verifier invocations and `N` dynamic repairs are added, and no
test-generation, initial-generation or stubgen events. -/
theorem runTestsAndCorrect_trace (env : Env) (f : FName) (t : Str) (N : Nat) (st : St) :
    ∃ E, (runTestsAndCorrect env f t N st).2.trace = st.trace ++ E ∧
      List.countP isUtestEv E ≤ N + 1 ∧
      List.countP isDynRepair E ≤ N ∧
      List.countP isTestGenCall E = 0 ∧
      List.countP isInitialGen E = 0 ∧
      List.countP isStubEv E = 0 := by
  unfold runTestsAndCorrect
  rcases hTC : typeCheckAndCorrect env f N st with ⟨res, st₂⟩
  obtain ⟨E1, hTr1, _, _, hU1, hD1, hT1, hI1, hS1⟩ :=
    typeCheckAndCorrect_trace env f N st res st₂ hTC
  cases res with
  | none =>
    refine ⟨E1, ?_, by omega, by omega, hT1, hI1, hS1⟩
    simp only [hTC]
    exact hTr1
  | some c =>
    obtain ⟨E2, hTr2, hU2, hD2, hT2, hI2, hS2⟩ :=
      rtcAux_trace env f c N (N + 1) 0 (st₂.readFile c) t st₂
    refine ⟨E1 ++ E2, ?_, ?_, ?_, ?_, ?_, ?_⟩
    · simp only [hTC]
      rw [hTr2, hTr1]
      simp
    · rw [List.countP_append]; omega
    · rw [List.countP_append]; omega
    · rw [List.countP_append]; omega
    · rw [List.countP_append]; omega
    · rw [List.countP_append]; omega

/-- C1 amended: for every oracle environment, every stage input and every
budget `N`, the static type-check loop performs at most `N+1` verifier
(mypy) invocations and at most `N+1` repair generations — the repair bound
`N` of the original claim is violated by the final repair generated after the
last failing verification — while the dynamic test loop performs at most
`N+1` verifier (unittest) invocations and at most `N` repair generations. -/
theorem C1_stage_budget_amended (env : Env) (f : FName) (t : Str) (N : Nat) (st : St) :
    List.countP isMypyEv (typeCheckAndCorrect env f N st).2.trace ≤
      List.countP isMypyEv st.trace + (N + 1) ∧
    List.countP isStaticRepair (typeCheckAndCorrect env f N st).2.trace ≤
      List.countP isStaticRepair st.trace + (N + 1) ∧
    List.countP isUtestEv (runTestsAndCorrect env f t N st).2.trace ≤
      List.countP isUtestEv st.trace + (N + 1) ∧
    List.countP isDynRepair (runTestsAndCorrect env f t N st).2.trace ≤
      List.countP isDynRepair st.trace + N := by
  rcases hTC : typeCheckAndCorrect env f N st with ⟨res, st₂⟩
  obtain ⟨E1, hTr1, hM1, hR1, _, _, _, _, _⟩ :=
    typeCheckAndCorrect_trace env f N st res st₂ hTC
  obtain ⟨E2, hTr2, hU2, hD2, _, _, _⟩ := runTestsAndCorrect_trace env f t N st
  refine ⟨?_, ?_, ?_, ?_⟩
  · simp only [hTC]
    rw [hTr1, List.countP_append]
    omega
  · simp only [hTC]
    rw [hTr1, List.countP_append]
    omega
  · rw [hTr2, List.countP_append]
    omega
  · rw [hTr2, List.countP_append]
    omega

/-- A trace without unittest events satisfies `goodUtest` vacuously. -/
theorem goodUtest_of_no_utest (tr : List Event) (h : ∀ e ∈ tr, isUtestEv e = false) :
    goodUtest tr := by
  intro i f v hi
  have hmem : Event.utestCall f v ∈ tr := by
    obtain ⟨hlt, hget⟩ := List.getElem?_eq_some.mp hi
    exact hget ▸ List.getElem_mem hlt
  have := h _ hmem
  simp [isUtestEv] at this

/-- Appending unittest-free events preserves `goodUtest`. -/
theorem goodUtest_append_no_utest (tr E : List Event) (h : goodUtest tr)
    (hE : ∀ e ∈ E, isUtestEv e = false) : goodUtest (tr ++ E) := by
  intro i f v hi
  by_cases hlt : i < tr.length
  · rw [List.getElem?_append_left hlt] at hi
    obtain ⟨j, g, hj, hjj⟩ := h i f v hi
    refine ⟨j, g, hj, ?_⟩
    rw [List.getElem?_append_left (by omega)]
    exact hjj
  · rw [List.getElem?_append_right (by omega)] at hi
    have hmem : Event.utestCall f v ∈ E := by
      obtain ⟨hlt2, hget⟩ := List.getElem?_eq_some.mp hi
      exact hget ▸ List.getElem_mem hlt2
    have := hE _ hmem
    simp [isUtestEv] at this

/-- Appending a unittest event preserves `goodUtest` when the trace already
contains a passing mypy invocation. -/
theorem goodUtest_append_utest (tr : List Event) (f : FName) (v : Bool)
    (h : goodUtest tr) (hw : ∃ (j : Nat) (g : FName),
      tr[j]? = some (Event.mypyCall g true)) :
    goodUtest (tr ++ [Event.utestCall f v]) := by
  intro i f' v' hi
  by_cases hlt : i < tr.length
  · rw [List.getElem?_append_left hlt] at hi
    obtain ⟨j, g, hj, hjj⟩ := h i f' v' hi
    refine ⟨j, g, hj, ?_⟩
    rw [List.getElem?_append_left (by omega)]
    exact hjj
  · obtain ⟨j, g, hjj⟩ := hw
    have hjlt : j < tr.length := (List.getElem?_eq_some.mp hjj).1
    refine ⟨j, g, by omega, ?_⟩
    rw [List.getElem?_append_left hjlt]
    exact hjj

/-- A zero `countP` bound turned element-wise. -/
theorem no_utest_of_countP (E : List Event) (h : List.countP isUtestEv E = 0) :
    ∀ e ∈ E, isUtestEv e = false := by
  intro e he
  have hx := List.countP_eq_zero.mp h e he
  cases hy : isUtestEv e
  · rfl
  · exact absurd hy hx

/-- Appending a non-unittest event preserves `goodUtest`. -/
theorem goodUtest_snoc (tr : List Event) (e : Event) (h : goodUtest tr)
    (he : isUtestEv e = false) : goodUtest (tr ++ [e]) := by
  refine goodUtest_append_no_utest tr [e] h ?_
  intro x hx
  rw [List.mem_singleton] at hx
  rw [hx]
  exact he

/-- A file write preserves `goodUtest`. -/
theorem goodUtest_writeFile (k : WKind) (n : FName) (cc : Str) (s : St)
    (hs : goodUtest s.trace) : goodUtest (s.writeFile k n cc).trace := by
  simp only [St.writeFile]
  exact goodUtest_snoc _ _ hs rfl

/-- The dynamic test loop preserves `goodUtest`: every unittest invocation it
performs happens right after its per-iteration static stage succeeded, which
put a passing mypy invocation into the trace. -/
theorem rtcAux_goodUtest (env : Env) (orig cfile : FName) (N : Nat) :
    ∀ (fuel tries : Nat) (code testCode : Str) (st : St), goodUtest st.trace →
      goodUtest (rtcAux env orig cfile N fuel tries code testCode st).2.trace := by
  intro fuel tries code testCode st
  induction fuel, tries, code, testCode, st using rtcAux.induct env orig cfile N with
  | case1 tries code testCode st =>
    intro h
    simpa [rtcAux] using h
  | case2 fuel tries code testCode st cwt cwtFile st1 st2 hTC =>
    intro h
    simp only [cwtFile, cwt, st1] at hTC
    simp only [rtcAux, hTC]
    obtain ⟨E1, hTr1, _, _, hU1, _, _, _, _⟩ :=
      typeCheckAndCorrect_trace env _ N _ none st2 hTC
    rw [hTr1]
    exact goodUtest_append_no_utest _ _
      (goodUtest_writeFile _ _ _ _ h) (no_utest_of_countP E1 hU1)
  | case3 fuel tries code testCode st cwt cwtFile st1 c st2 hTC cwt2 code1 testCode1 st3 hSF verdict hv =>
    intro h
    have hv' : env.utest st3.nUtest = true := hv
    simp only [cwtFile, cwt, st1] at hTC
    simp only [cwt2] at hSF
    obtain ⟨E1, hTr1, _, _, hU1, _, _, _, _⟩ :=
      typeCheckAndCorrect_trace env _ N _ (some c) st2 hTC
    obtain ⟨E2, hTr2, hU2, _, _, _, _⟩ :=
      splitOrFallback_trace (st2.readFile c) testCode c st2
    have hst3 : (splitOrFallback (st2.readFile c) testCode c st2).2.2 = st3 := by
      rw [hSF]
    rw [hst3] at hTr2
    have hG2 : goodUtest st2.trace := by
      rw [hTr1]
      exact goodUtest_append_no_utest _ _
        (goodUtest_writeFile _ _ _ _ h) (no_utest_of_countP E1 hU1)
    have hG3 : goodUtest st3.trace := by
      rw [hTr2]
      exact goodUtest_append_no_utest _ _ hG2 (no_utest_of_countP E2 hU2)
    have hwit : ∃ (j : Nat) (g : FName), st3.trace[j]? = some (Event.mypyCall g true) := by
      obtain ⟨j, g, hj⟩ := typeCheckAndCorrect_success_mypy env _ N _ c st2 hTC
      refine ⟨j, g, ?_⟩
      rw [hTr2]
      rw [List.getElem?_append_left (List.getElem?_eq_some.mp hj).1]
      exact hj
    simp only [rtcAux, hTC, hSF, hv', if_true, St.emit]
    exact goodUtest_append_utest st3.trace c true hG3 hwit
  | case4 fuel tries code testCode st cwt cwtFile st1 c st2 hTC cwt2 code1 testCode1 st3 hSF verdict hv tries' hBr =>
    intro h
    have hv' : env.utest st3.nUtest = false := by
      cases hx : env.utest st3.nUtest
      · rfl
      · exact absurd hx hv
    have hBr' : N < tries + 1 := hBr
    simp only [cwtFile, cwt, st1] at hTC
    simp only [cwt2] at hSF
    obtain ⟨E1, hTr1, _, _, hU1, _, _, _, _⟩ :=
      typeCheckAndCorrect_trace env _ N _ (some c) st2 hTC
    obtain ⟨E2, hTr2, hU2, _, _, _, _⟩ :=
      splitOrFallback_trace (st2.readFile c) testCode c st2
    have hst3 : (splitOrFallback (st2.readFile c) testCode c st2).2.2 = st3 := by
      rw [hSF]
    rw [hst3] at hTr2
    have hG2 : goodUtest st2.trace := by
      rw [hTr1]
      exact goodUtest_append_no_utest _ _
        (goodUtest_writeFile _ _ _ _ h) (no_utest_of_countP E1 hU1)
    have hG3 : goodUtest st3.trace := by
      rw [hTr2]
      exact goodUtest_append_no_utest _ _ hG2 (no_utest_of_countP E2 hU2)
    have hwit : ∃ (j : Nat) (g : FName), st3.trace[j]? = some (Event.mypyCall g true) := by
      obtain ⟨j, g, hj⟩ := typeCheckAndCorrect_success_mypy env _ N _ c st2 hTC
      refine ⟨j, g, ?_⟩
      rw [hTr2]
      rw [List.getElem?_append_left (List.getElem?_eq_some.mp hj).1]
      exact hj
    have h45 : goodUtest ((st3.trace ++ [Event.utestCall c false]) ++
        [Event.write .diagnostic (errorsName c) (env.utestDiag st3.nUtest)]) :=
      goodUtest_snoc _ _ (goodUtest_append_utest st3.trace c false hG3 hwit) rfl
    simp only [rtcAux, hTC, hSF, hv', Bool.false_eq_true, if_false, hBr', if_true]
    simp only [St.emit, St.writeFile]
    simpa [List.append_assoc] using h45
  | case5 fuel tries code testCode st cwt cwtFile st1 c st2 hTC cwt2 code1 testCode1 st3 hSF testCode2 verdict diag st4 hv tries' st5 hBr newCode st6 hPA ih =>
    intro h
    have hv' : env.utest st3.nUtest = false := by
      cases hx : env.utest st3.nUtest
      · rfl
      · exact absurd hx hv
    have hBr' : ¬N < tries + 1 := hBr
    simp only [cwtFile, cwt, st1] at hTC
    simp only [cwt2] at hSF
    obtain ⟨E1, hTr1, _, _, hU1, _, _, _, _⟩ :=
      typeCheckAndCorrect_trace env _ N _ (some c) st2 hTC
    obtain ⟨E2, hTr2, hU2, _, _, _, _⟩ :=
      splitOrFallback_trace (st2.readFile c) testCode c st2
    have hst3 : (splitOrFallback (st2.readFile c) testCode c st2).2.2 = st3 := by
      rw [hSF]
    rw [hst3] at hTr2
    have hG2 : goodUtest st2.trace := by
      rw [hTr1]
      exact goodUtest_append_no_utest _ _
        (goodUtest_writeFile _ _ _ _ h) (no_utest_of_countP E1 hU1)
    have hG3 : goodUtest st3.trace := by
      rw [hTr2]
      exact goodUtest_append_no_utest _ _ hG2 (no_utest_of_countP E2 hU2)
    have hwit : ∃ (j : Nat) (g : FName), st3.trace[j]? = some (Event.mypyCall g true) := by
      obtain ⟨j, g, hj⟩ := typeCheckAndCorrect_success_mypy env _ N _ c st2 hTC
      refine ⟨j, g, ?_⟩
      rw [hTr2]
      rw [List.getElem?_append_left (List.getElem?_eq_some.mp hj).1]
      exact hj
    have hst6 : (programmerAgent env GenTag.dynamicRepair st5).2 = st6 :=
      congrArg Prod.snd hPA
    have hG6 : goodUtest st6.trace := by
      rw [← hst6]
      simp only [programmerAgent, St.emit]
      simp only [st5, st4, tries', diag, verdict]
      simp only [hv', St.writeFile, St.emit]
      have hstep : goodUtest (((st3.trace ++ [Event.utestCall c false]) ++
          [Event.write .diagnostic (errorsName c) (env.utestDiag st3.nUtest)]) ++
          [Event.genCall .dynamicRepair]) :=
        goodUtest_snoc _ _
          (goodUtest_snoc _ _ (goodUtest_append_utest st3.trace c false hG3 hwit) rfl) rfl
      simpa [List.append_assoc] using hstep
    simp only [st5, st4, tries', diag, verdict] at hPA
    simp only [hv'] at hPA
    simp only [tries', testCode2] at ih
    simp only [rtcAux, hTC, hSF, hv', Bool.false_eq_true, if_false, hBr']
    simp only [hPA]
    exact ih hG6

/-- `run_tests_and_correct` preserves `goodUtest`. -/
theorem runTestsAndCorrect_goodUtest (env : Env) (f : FName) (t : Str) (N : Nat)
    (st : St) (h : goodUtest st.trace) :
    goodUtest (runTestsAndCorrect env f t N st).2.trace := by
  unfold runTestsAndCorrect
  rcases hTC : typeCheckAndCorrect env f N st with ⟨res, st₂⟩
  obtain ⟨E1, hTr1, _, _, hU1, _, _, _, _⟩ :=
    typeCheckAndCorrect_trace env f N st res st₂ hTC
  have hG2 : goodUtest st₂.trace := by
    rw [hTr1]
    exact goodUtest_append_no_utest _ _ h (no_utest_of_countP E1 hU1)
  cases res with
  | none => exact hG2
  | some c => exact rtcAux_goodUtest env f c N (N + 1) 0 (st₂.readFile c) t st₂ hG2

/-- The generation prefix of `run` produces exactly five events: initial
generation, the `code.py` write, stubgen, the `.pyi` write and the
test-generation call — before any verifier runs. -/
theorem stPrefix_trace (env : Env) :
    (stPrefix env).2.trace =
      [Event.genCall .initial,
       Event.write .candidate codeFileName (cleanCode (env.llm 0)),
       Event.stubgenCall codeFileName,
       Event.write .stubFile ⟨codeFileName.stem, ".pyi".toList⟩ (env.stub 0),
       Event.genCall .testGen] := rfl

/-- The final state of `run` is the final state of its last stage. -/
theorem runPipeline_snd (env : Env) (N : Nat) :
    (runPipeline env N).2 = (pipelineStage env N).2 := by
  unfold runPipeline
  rcases h : pipelineStage env N with ⟨res, st⟩
  cases res <;> rfl

/-- `run` is the generation prefix followed by `run_tests_and_correct`. -/
theorem pipelineStage_eq (env : Env) (N : Nat) :
    pipelineStage env N =
      runTestsAndCorrect env codeFileName (stPrefix env).1 N (stPrefix env).2 := rfl

/-- The events after the generation prefix contain no stubgen and no
test-generation calls. -/
theorem pipelineStage_trace (env : Env) (N : Nat) : ∃ E,
    (pipelineStage env N).2.trace = (stPrefix env).2.trace ++ E ∧
    List.countP isStubEv E = 0 ∧
    List.countP isTestGenCall E = 0 := by
  obtain ⟨E, hTr, _, _, hT, _, hS⟩ :=
    runTestsAndCorrect_trace env codeFileName (stPrefix env).1 N (stPrefix env).2
  exact ⟨E, by rw [pipelineStage_eq, hTr], hS, hT⟩

/-- C2 amended: in every run, stub extraction and test generation are
performed on the initial candidate immediately after the first generation and
BEFORE every static-verifier invocation (the original claim had them after
the first static stage); the rest of the ordering holds: every
dynamic-verifier invocation is preceded by an earlier passing
static-verifier verdict. -/
theorem C2_pipeline_order_amended (env : Env) (N : Nat) :
    (∀ (i j : Nat) (f g : FName) (p : Bool),
        ((runPipeline env N).2.trace)[i]? = some (Event.stubgenCall f) →
        ((runPipeline env N).2.trace)[j]? = some (Event.mypyCall g p) → i < j) ∧
    (∀ (i j : Nat) (g : FName) (p : Bool),
        ((runPipeline env N).2.trace)[i]? = some (Event.genCall .testGen) →
        ((runPipeline env N).2.trace)[j]? = some (Event.mypyCall g p) → i < j) ∧
    goodUtest (runPipeline env N).2.trace := by
  obtain ⟨E, hTr, hS, hT⟩ := pipelineStage_trace env N
  rw [stPrefix_trace] at hTr
  refine ⟨?_, ?_, ?_⟩
  · intro i j f g p hi hj
    rw [runPipeline_snd, hTr] at hi hj
    by_cases hiP : i < 5
    · by_cases hjP : j < 5
      · exfalso
        rw [List.getElem?_append_left (by simpa using hjP)] at hj
        interval_cases j <;> simp_all
      · omega
    · exfalso
      rw [List.getElem?_append_right (by simp; omega)] at hi
      have hmem : Event.stubgenCall f ∈ E := by
        obtain ⟨hlt, hget⟩ := List.getElem?_eq_some.mp hi
        exact hget ▸ List.getElem_mem hlt
      have := List.countP_eq_zero.mp hS _ hmem
      simp [isStubEv] at this
  · intro i j g p hi hj
    rw [runPipeline_snd, hTr] at hi hj
    by_cases hiP : i < 5
    · by_cases hjP : j < 5
      · exfalso
        rw [List.getElem?_append_left (by simpa using hjP)] at hj
        interval_cases j <;> simp_all
      · omega
    · exfalso
      rw [List.getElem?_append_right (by simp; omega)] at hi
      have hmem : Event.genCall .testGen ∈ E := by
        obtain ⟨hlt, hget⟩ := List.getElem?_eq_some.mp hi
        exact hget ▸ List.getElem_mem hlt
      have := List.countP_eq_zero.mp hT _ hmem
      simp [isTestGenCall] at this
  · rw [runPipeline_snd, pipelineStage_eq]
    apply runTestsAndCorrect_goodUtest
    apply goodUtest_of_no_utest
    intro e he
    rw [stPrefix_trace] at he
    simp only [List.mem_cons, List.mem_singleton] at he
    rcases he with h | h | h | h | h | h
    · rw [h]; rfl
    · rw [h]; rfl
    · rw [h]; rfl
    · rw [h]; rfl
    · rw [h]; rfl
    · simp at h

/-- C9 amended: in the static type-check loop every repair writes a fresh
candidate file whose retry-indexed name is distinct from all other candidates
written by that loop and from the loop's input candidate, so the static loop
never rewrites a candidate; the dynamic stage's fallback path, however,
rewrites the current combined candidate file in place (see the
counterexample), so candidates are not immutable in general. -/
theorem C9_static_candidates_fresh_amended (env : Env) (orig : FName) (N : Nat) (st : St) :
    ∃ E, (typeCheckAndCorrect env orig N st).2.trace = st.trace ++ E ∧
      (candNames E).Nodup ∧ ∀ n ∈ candNames E, n ≠ orig := by
  obtain ⟨E, m, hTr, hm, hCand, _, _, _, _, _, _, _⟩ :=
    tcAux_trace env orig (N + 1) 0 orig st
  refine ⟨E, hTr, ?_, ?_⟩
  · rw [hCand]
    exact List.Nodup.map (retryName_inj orig) (List.nodup_range' _ _)
  · intro n hn
    rw [hCand] at hn
    obtain ⟨k, hk, rfl⟩ := List.mem_map.mp hn
    exact retryName_ne orig k

/-- C10: whenever the final stage of `run` fails (returns None), `run`
returns the empty string, and a successful run whose final code is empty
returns the empty string as well — at the public interface the two are
indistinguishable. -/
theorem C10_failure_returns_empty :
    (∀ (env : Env) (N : Nat), (pipelineStage env N).1 = none →
      (runPipeline env N).1 = []) ∧
    (pipelineStage envTestsFail 0).1 = none ∧ (runPipeline envTestsFail 0).1 = [] ∧
    (pipelineStage envAllPass 0).1 = some [] ∧ (runPipeline envAllPass 0).1 = [] := by
  refine ⟨?_, by decide, by decide, by decide, by decide⟩
  intro env N h
  unfold runPipeline
  rcases hps : pipelineStage env N with ⟨res, st⟩
  rw [hps] at h
  simp only at h
  subst h
  rfl

/-- C1 counterexample: with budget 0 and a mypy verdict sequence that always
fails, the static type-check loop performs one verifier invocation (within
the claimed bound of N+1 = 1) but also one repair generation, exceeding the
claimed repair bound N = 0: after the last failing verification the loop
still generates and writes a repair whose product is never verified. -/
theorem C1_static_repair_budget_counterexample :
    List.countP isMypyEv
        (typeCheckAndCorrect envMypyFail codeFileName 0 ({} : St)).2.trace = 1 ∧
      List.countP isStaticRepair
        (typeCheckAndCorrect envMypyFail codeFileName 0 ({} : St)).2.trace = 1 ∧
      ¬List.countP isStaticRepair
        (typeCheckAndCorrect envMypyFail codeFileName 0 ({} : St)).2.trace ≤ 0 :=
  ⟨by decide, by decide, by decide⟩

/-- C2 counterexample: in a run where every verifier passes, the stubgen
invocation is NOT preceded by any passing static-verifier invocation — stub
extraction and test generation happen before the static stage, contradicting
the claimed ordering. -/
theorem C2_stub_before_static_counterexample :
    stubsAfterPass (runPipeline envAllPass 0).2.trace false = false := by decide

/-- Witness for the amended C2: in the concrete all-pass run the stubgen
event sits at index 2 and the first mypy invocation at index 5, and the
theorem yields 2 < 5. -/
theorem C2_pipeline_order_amended_witness :
    ((runPipeline envAllPass 0).2.trace)[2]? = some (Event.stubgenCall codeFileName) ∧
      ((runPipeline envAllPass 0).2.trace)[5]? =
        some (Event.mypyCall codeFileName true) ∧
      2 < 5 :=
  ⟨by decide, by decide,
   (C2_pipeline_order_amended envAllPass 0).1 2 5 codeFileName codeFileName true
     (by decide) (by decide)⟩

/-- C3 evaluation at the failing input: the generative model returns the
empty string on the very first generation (`envAllPass.llm 0 = ""`, and
`clean_code "" = ""`), yet the run does not fail fast: both verifiers are
invoked on the empty candidate and the run terminates as a success carrying
the empty code, contradicting the claim (which the spec itself notes the
source violates). -/
theorem C3_empty_generation_code_eval :
    cleanCode ([] : Str) = [] ∧
      (pipelineStage envAllPass 0).1 = some [] ∧
      0 < List.countP isMypyEv (pipelineStage envAllPass 0).2.trace ∧
      0 < List.countP isUtestEv (pipelineStage envAllPass 0).2.trace :=
  ⟨by decide, by decide, by decide, by decide⟩

/-- C4 evaluation at the failing input: in a fully passing run whose
generated code is "c" and whose generated tests are "t", the terminal result
of `run_tests_and_correct` is only the code "c" — the test text "t" is not
part of the returned value, contradicting both the claim and the function's
own docstring ("Returns the final code and tests if successful"). -/
theorem C4_terminal_result_code_eval :
    (stPrefix envCodeTests).1 = ['t'] ∧
      (pipelineStage envCodeTests 0).1 = some ['c'] ∧
      (runPipeline envCodeTests 0).1 = ['c'] :=
  ⟨by decide, by decide, by decide⟩

/-- C9 counterexample: when the generated test text itself contains the
separator, the first split of the combined artifact takes the fallback path,
which rewrites the already-written combined candidate file with different
contents — a candidate file is mutated after creation. -/
theorem C9_candidate_mutation_counterexample :
    hasRewrite (candWrites (runPipeline envSepTests 0).2.trace) = true := by decide

/-- Witness for C10: with a unittest oracle that always fails and budget 1,
the final stage returns None and `run` returns the empty string. -/
theorem C10_failure_returns_empty_witness :
    (pipelineStage envTestsFail 1).1 = none ∧ (runPipeline envTestsFail 1).1 = [] :=
  ⟨by decide, C10_failure_returns_empty.1 envTestsFail 1 (by decide)⟩
